import Mathlib

/-!
Verification of the spell-checker settings persistence layer and the
server validation scheduler, as a shallow embedding.

The embedding covers:
* the client settings persistence operations of CSpellSettings
  (readSettings, addWordsToSettings, removeWordsFromSettings,
  addLanguageIdsToSettings, isUpdateSupportedForConfigFileFormat,
  readSettingsFileAndApplyUpdate, addWordsToCustomDictionary); the
  implementation file of these operations is not among the sources (only
  its test suite is), so they are modelled from the spec, with the names
  used by the test suite;
* the server validation pipeline of server.ts: the gating predicate
  shouldValidateDocument, the RxJS debounce stage of the validation
  stream, the skip stream that is meant to clear diagnostics, and the
  onDidClose handler.
-/

namespace CSpell

/-- A parsed URI: the path component plus optional query and fragment.
Matches the fields of vscode.Uri that the code inspects. -/
structure Uri where
  path : String
  query : String := ""
  fragment : String := ""
deriving DecidableEq

/-- The configuration document shape used by both the client settings
code and the server (optional fields of a cspell configuration object). -/
structure CSpellUserSettings where
  version : Option String := none
  words : Option (List String) := none
  ignoreWords : Option (List String) := none
  enabledLanguageIds : Option (List String) := none
  enabled : Option Bool := none
deriving DecidableEq

/-- Modelled from the spec: the well-known immutable default configuration
instance returned when a settings file is absent (version "0.2", no word
lists). Reference equality of the source is modelled as equality with this
single distinguished constant. -/
def getDefaultSettings : CSpellUserSettings :=
  { version := some "0.2" }

/-! ## String primitives over character lists

The string primitives the code relies on, defined over the character
lists of the strings so that they evaluate on concrete inputs. -/

/-- Suffix test: the path classification of configuration and dictionary
file formats inspects the trailing characters of the path. -/
def strEndsWith (s pat : String) : Bool :=
  List.isSuffixOf pat.data s.data

/-- Leading-characters test, used for the scheme-anchored default
exclusion glob. -/
def strStartsWith (s pat : String) : Bool :=
  List.isPrefixOf pat.data s.data

/-- Lower-case a word character by character (the case folding of
Char.toLower): the lower-cased form used by case-insensitive removal. -/
def toLowerStr (s : String) : String :=
  String.mk (s.data.map Char.toLower)

/-- Lexicographic comparison of character lists by character code,
matching the default JavaScript string sort on plain words. -/
def lexLe : List Char → List Char → Bool
  | [], _ => true
  | _ :: _, [] => false
  | a :: as, b :: bs =>
      if a < b then true
      else if a = b then lexLe as bs
      else false

/-- Lexicographic string comparison by character code. -/
def strLe (a b : String) : Bool := lexLe a.data b.data

/-- The ordering relation used to sort dictionary word lists. -/
def strLeProp (a b : String) : Prop := strLe a b = true

instance : DecidableRel strLeProp := fun a b =>
  inferInstanceAs (Decidable (strLe a b = true))

/-! ## First-occurrence de-duplication (the `unique` utility)

The client code de-duplicates word lists case-sensitively, keeping the
first occurrence of each element (JavaScript Set insertion order). -/

/-- Keep the elements of the list not in `seen`, first occurrence only. -/
def uniqueFilter (seen : List String) : List String → List String
  | [] => []
  | x :: xs =>
      if x ∈ seen then uniqueFilter seen xs
      else x :: uniqueFilter (x :: seen) xs

/-- First-occurrence, case-sensitive de-duplication. -/
def unique (l : List String) : List String := uniqueFilter [] l

/-! ## Sorting of dictionary word lists -/

/-- Sort a word list (the custom dictionary files store their words
sorted). -/
def sortWords (l : List String) : List String :=
  List.insertionSort strLeProp l

/-! ## Settings Persistence Layer (client CSpellSettings) -/

/-- Modelled from the spec: `isUpdateSupportedForFormat(uri) -> bool`:
only `.json`/`.jsonc` (with or without query/fragment) are mutation
targets. The query and fragment components are ignored: only the path is
classified. The name follows the test suite of CSpellSettings. -/
def isUpdateSupportedForConfigFileFormat (uri : Uri) : Bool :=
  strEndsWith uri.path ".json" || strEndsWith uri.path ".jsonc"

/-- A store of parsed configuration files, path to parsed document.
`List.lookup` returns the first match, so prepending models overwriting. -/
def SettingsFS : Type := List (String × CSpellUserSettings)

/-- Write a parsed settings document: later writes shadow earlier ones. -/
def writeSettingsFS (fs : SettingsFS) (p : String) (doc : CSpellUserSettings) :
    SettingsFS :=
  (p, doc) :: fs

/-- Look up the parsed content of a settings file, absent when missing. -/
def lookupSettingsFS (fs : SettingsFS) (p : String) :
    Option CSpellUserSettings :=
  List.lookup p fs

/-- Modelled from the spec: `readSettings(uri)` resolves the raw read;
when the file is absent it returns the well-known immutable default
configuration instance rather than synthesizing a new object. -/
def readSettings (fs : SettingsFS) (uri : Uri) : CSpellUserSettings :=
  match lookupSettingsFS fs uri.path with
  | some doc => doc
  | none => getDefaultSettings

/-- The file operations the persistence layer performs against a target
file, recorded in order. -/
inductive IOOp where
  | readOp (p : String)
  | writeOp (p : String)
deriving DecidableEq

/-- The error raised when a mutation is requested on an unsupported
configuration format; it carries the target path. -/
inductive UpdateError where
  | failedToUpdateConfigFile (path : String)
deriving DecidableEq

/-- Modelled from the spec: `readAndApplyUpdate(uri, transform)` loads the
current settings, applies the transform and writes the result back; it
fails with `FailedToUpdateConfigFile` (carrying the target path) when
`isUpdateSupportedForConfigFileFormat` is false for the uri, before
attempting any read or write. The returned triple is the outcome, the
resulting file store and the trace of file operations performed. The name
follows the test suite of CSpellSettings. -/
def readSettingsFileAndApplyUpdate (fs : SettingsFS) (uri : Uri)
    (transform : CSpellUserSettings → CSpellUserSettings) :
    Except UpdateError CSpellUserSettings × SettingsFS × List IOOp :=
  if isUpdateSupportedForConfigFileFormat uri then
    let updated := transform (readSettings fs uri)
    (Except.ok updated, writeSettingsFS fs uri.path updated,
      [IOOp.readOp uri.path, IOOp.writeOp uri.path])
  else
    (Except.error (UpdateError.failedToUpdateConfigFile uri.path), fs, [])

/-- Modelled from the spec: `addWordsToSettings(doc, words)` de-duplicates
case-sensitively against the existing list, preserving first occurrence
ordering and appending genuinely new words; it returns a new document
(all operations here are pure, so the input document is never mutated). -/
def addWordsToSettings (doc : CSpellUserSettings) (wordsToAdd : List String) :
    CSpellUserSettings :=
  { doc with words := some (unique ((doc.words.getD []) ++ wordsToAdd)) }

/-- Modelled from the spec: `removeWordsFromSettings(doc, words)` removes
case-insensitively: a removal word deletes any existing word whose
lower-cased form is equal; when the result is empty the field is cleared
to unset rather than kept as an empty list. -/
def removeWordsFromSettings (doc : CSpellUserSettings)
    (wordsToRemove : List String) : CSpellUserSettings :=
  let lower := wordsToRemove.map toLowerStr
  let kept := (doc.words.getD []).filter (fun w => !(lower.contains (toLowerStr w)))
  { doc with words := if kept.isEmpty then none else some kept }

/-- Words surviving a case-insensitive removal, in their original order. -/
def keptWords (existing wordsToRemove : List String) : List String :=
  existing.filter
    (fun w => !((wordsToRemove.map toLowerStr).contains (toLowerStr w)))

/-- Modelled from the spec: `addLanguageIdsToSettings(doc, ids,
isEnabledByDefaultList)`: when the flag is true the operation is a no-op
returning the document unchanged; when false the ids are unioned
(de-duplicated) into `enabledLanguageIds`. -/
def addLanguageIdsToSettings (doc : CSpellUserSettings) (ids : List String)
    (isEnabledByDefaultList : Bool) : CSpellUserSettings :=
  if isEnabledByDefaultList then doc
  else { doc with
          enabledLanguageIds :=
            some (unique ((doc.enabledLanguageIds.getD []) ++ ids)) }

/-! ## Custom dictionary files

A dictionary file is newline-delimited words. The store keeps each file
as its list of lines; the serialized on-disk content is `joinLines` of
the lines: each word on its own line followed by a newline character. -/

/-- Serialize lines: each line followed by a newline character. -/
def joinLines : List String → String
  | [] => ""
  | [l] => l ++ "\n"
  | l :: ls => l ++ "\n" ++ joinLines ls

/-- A store of dictionary files, path to list of lines. -/
def DictFS : Type := List (String × List String)

/-- Write a dictionary file: later writes shadow earlier ones. -/
def writeDictFS (fs : DictFS) (p : String) (ls : List String) : DictFS :=
  (p, ls) :: fs

/-- Read the lines of a dictionary file; a missing file reads as empty. -/
def readDictLines (fs : DictFS) (p : String) : List String :=
  (List.lookup p fs).getD []

/-- Modelled from the spec: the recognized dictionary text format is a
plain-text word list such as `.txt`; an empty or unrecognized extension
is rejected. -/
def isRecognizedDictionaryFormat (p : String) : Bool :=
  strEndsWith p ".txt"

/-- The lines a successful dictionary update stores: the sorted,
case-sensitively de-duplicated union of the prior lines and the new
words. -/
def mergedDictLines (fs : DictFS) (p : String) (wordsToAdd : List String) :
    List String :=
  sortWords (unique (readDictLines fs p ++ wordsToAdd))

/-- Modelled from the spec: `addWordsToCustomDictionary(words, dictUri)`
fails with a descriptive error naming the target path when the extension
is not a recognized dictionary format; otherwise it reads the existing
lines (a missing file treated as empty), computes the sorted union of
existing lines and new words (case-sensitive, de-duplicated) and rewrites
the file as newline-joined content with a trailing newline. -/
def addWordsToCustomDictionary (wordsToAdd : List String) (fs : DictFS)
    (dictUri : Uri) : Except String DictFS :=
  if isRecognizedDictionaryFormat dictUri.path then
    Except.ok (writeDictFS fs dictUri.path (mergedDictLines fs dictUri.path wordsToAdd))
  else
    Except.error
      ("Failed to add words to dictionary " ++ dictUri.path ++ ", unsupported format.")

/-! ## Validation Scheduler (server.ts)

The validation request stream of server.ts carries text documents. Each
request is resolved against the active settings, filtered by
shouldValidateDocument, debounced, and handed to validateTextDocument.
A second subscription on the same stream is meant to clear diagnostics
for the documents that are filtered out. -/

/-- A text document as seen by the validation stream: URI, language id
and the version at the time the change event fired. -/
structure ServerDoc where
  uri : String
  languageId : String
  version : Nat
deriving DecidableEq

/-- From server.ts isLanguageEnabled: `enabledLanguageIds` of the active
settings (defaulting to the empty list) must contain the language id of
the document. -/
def isLanguageEnabled (doc : ServerDoc) (settings : CSpellUserSettings) : Bool :=
  (settings.enabledLanguageIds.getD []).contains doc.languageId

/-- From server.ts shouldValidateDocument: the effective `enabled` flag
(an absent flag is falsy), the language gate, and the exclusion check.
`isExcluded` abstracts documentSettings.isExcluded, the compiled
exclusion set. -/
def shouldValidateDocument (doc : ServerDoc) (settings : CSpellUserSettings)
    (isExcluded : String → Bool) : Bool :=
  settings.enabled.getD false && (isLanguageEnabled doc settings
    && !(isExcluded doc.uri))

/-- Modelled from the spec: the default exclusion glob `vscode:/**`
matches every URI whose logical path starts with `vscode:/` (for example
the generated settings.json view). -/
def matchesVscodeDefaultExclusionGlob (uri : String) : Bool :=
  strStartsWith uri "vscode:/"

/-- The gate section of the validation stream (the two flatMap stages and
the filter, server.ts lines 204..207): only documents satisfying
shouldValidateDocument continue towards the debounce stage and the
external validator; the rest are dropped from this stream. -/
def gatedValidationStream (docs : List ServerDoc)
    (settings : CSpellUserSettings) (isExcluded : String → Bool) :
    List ServerDoc :=
  docs.filter (fun d => shouldValidateDocument d settings isExcluded)

/-- JavaScript truthiness of the value tested by the skip-stream filter:
shouldValidateDocument is an async function, so calling it without await
yields a Promise object, and an object is always truthy. -/
def promiseObjectIsTruthy : Bool := true

/-- From server.ts line 225: `.filter(doc => !shouldValidateDocument(doc))`.
The call returns a Promise, not a boolean, so the filter negates a truthy
object whatever the document is. -/
def skipValidationStreamFilter (_doc : ServerDoc) : Bool :=
  !promiseObjectIsTruthy

/-- Diagnostics published over the connection: the target URI and the
list of diagnostics (abstracted as strings). -/
structure PublishDiagnosticsParams where
  uri : String
  diagnostics : List String
deriving DecidableEq

/-- The emissions of the skip stream (server.ts lines 224..229): for each
document passing its filter, an empty diagnostic set for its URI. -/
def skipValidationStreamEmissions (docs : List ServerDoc) :
    List PublishDiagnosticsParams :=
  (docs.filter skipValidationStreamFilter).map
    (fun d => { uri := d.uri, diagnostics := [] })

/-- Joint state of the debounce stage of the validation stream and of the
diagnostics published outside it: the value held inside the RxJS debounce
operator, whether a duration selector (a subject fed by the
spellCheckDelayMs timer of the latest request) is active, the
lastValidated variable of server.ts (assigned only at its declaration,
where it receives ""), the documents handed to validateTextDocument in
order, and the diagnostics published by the close handler. -/
structure SchedulerState where
  lastValidated : String := ""
  pending : Option ServerDoc := none
  durationSelectorActive : Bool := false
  validated : List ServerDoc := []
  published : List PublishDiagnosticsParams := []
deriving DecidableEq

/-- Emit the value held by the debounce operator downstream: the document
is handed to validateTextDocument and the stage after the debounce clears
the duration-selector variable. -/
def flushPending (s : SchedulerState) : SchedulerState :=
  match s.pending with
  | some d => { s with pending := none, durationSelectorActive := false,
                       validated := s.validated ++ [d] }
  | none => { s with durationSelectorActive := false }

/-- Events driving the scheduler: a gated document-change request
reaching the debounce stage, the expiry of the pending debounce timer
(the delay drawn from the settings of the latest request), and the
closing of a document. Two requests with no timer expiry between them are
two events within the debounce window. -/
inductive SchedulerEvent where
  | request (d : ServerDoc)
  | timerFires
  | close (uri : String)

/-- One step of the scheduler, following the RxJS 5 debounce semantics of
server.ts lines 209..221 and the close handler of lines 298..301.

On a request the duration selector callback runs first, while the
previous value is still held: when the URI of the arriving document
differs from lastValidated and a duration selector is still active, the
callback pushes 0 into that selector, which synchronously emits the held
document (the previous request) downstream; only then is the held value
replaced by the new document and a fresh timer started. lastValidated is
never reassigned in the source, so it keeps its initial value "".

On timer expiry the held document is emitted downstream.

On close the server publishes an empty diagnostic set for the closed URI
and touches nothing else. -/
def schedulerStep (s : SchedulerState) : SchedulerEvent → SchedulerState
  | .request d =>
      let s1 :=
        if (d.uri != s.lastValidated) && s.durationSelectorActive then
          flushPending s
        else s
      { s1 with pending := some d, durationSelectorActive := true }
  | .timerFires =>
      if s.durationSelectorActive then flushPending s else s
  | .close uri =>
      { s with published := s.published ++ [{ uri := uri, diagnostics := [] }] }

/-- The scheduler before any event: nothing pending, nothing validated. -/
def initialSchedulerState : SchedulerState := {}

/-- Run the scheduler over a sequence of events in arrival order. -/
def runScheduler (evs : List SchedulerEvent) : SchedulerState :=
  evs.foldl schedulerStep initialSchedulerState

/-! ## Helper lemmas -/

theorem lexLe_total : ∀ a b : List Char, lexLe a b = true ∨ lexLe b a = true := by
  intro a
  induction a with
  | nil => intro b; exact Or.inl rfl
  | cons x xs ih =>
      intro b
      cases b with
      | nil => exact Or.inr rfl
      | cons y ys =>
          rcases lt_trichotomy x y with h | h | h
          · left; simp [lexLe, h]
          · subst h
            rcases ih ys with h2 | h2
            · left; simp [lexLe, h2]
            · right; simp [lexLe, h2]
          · right; simp [lexLe, h]

theorem lexLe_trans : ∀ a b c : List Char,
    lexLe a b = true → lexLe b c = true → lexLe a c = true := by
  intro a
  induction a with
  | nil => intro b c _ _; rfl
  | cons x xs ih =>
      intro b c hab hbc
      cases b with
      | nil => simp [lexLe] at hab
      | cons y ys =>
          cases c with
          | nil => simp [lexLe] at hbc
          | cons z zs =>
              by_cases hxy : x < y
              · by_cases hyz : y < z
                · simp [lexLe, lt_trans hxy hyz]
                · by_cases hyz2 : y = z
                  · subst hyz2; simp [lexLe, hxy]
                  · simp [lexLe, hyz, hyz2] at hbc
              · by_cases hxy2 : x = y
                · subst hxy2
                  simp only [lexLe, lt_self_iff_false, if_false, if_pos rfl] at hab
                  by_cases hyz : x < z
                  · simp [lexLe, hyz]
                  · by_cases hyz2 : x = z
                    · subst hyz2
                      simp only [lexLe, lt_self_iff_false, if_false, if_pos rfl] at hbc ⊢
                      exact ih ys zs hab hbc
                    · simp [lexLe, hyz, hyz2] at hbc
                · simp [lexLe, hxy, hxy2] at hab

theorem lexLe_antisymm : ∀ a b : List Char,
    lexLe a b = true → lexLe b a = true → a = b := by
  intro a
  induction a with
  | nil =>
      intro b _ hba
      cases b with
      | nil => rfl
      | cons y ys => simp [lexLe] at hba
  | cons x xs ih =>
      intro b hab hba
      cases b with
      | nil => simp [lexLe] at hab
      | cons y ys =>
          by_cases hxy : x < y
          · simp [lexLe, hxy.asymm, hxy.ne'] at hba
          · by_cases hxy2 : x = y
            · subst hxy2
              simp only [lexLe, lt_self_iff_false, if_false, if_pos rfl] at hab hba
              exact congrArg (x :: ·) (ih ys hab hba)
            · simp [lexLe, hxy, hxy2] at hab

instance : IsTotal String strLeProp :=
  ⟨fun a b => lexLe_total a.data b.data⟩

instance : IsTrans String strLeProp :=
  ⟨fun a b c => lexLe_trans a.data b.data c.data⟩

instance : IsAntisymm String strLeProp :=
  ⟨fun a b hab hba => by
    cases a with
    | mk da =>
        cases b with
        | mk db => exact congrArg String.mk (lexLe_antisymm da db hab hba)⟩

theorem mem_uniqueFilter (l : List String) :
    ∀ (seen : List String) (a : String),
      a ∈ uniqueFilter seen l ↔ a ∈ l ∧ a ∉ seen := by
  induction l with
  | nil => intro seen a; simp [uniqueFilter]
  | cons x xs ih =>
      intro seen a
      simp only [uniqueFilter]
      by_cases hx : x ∈ seen
      · rw [if_pos hx, ih seen a]
        simp only [List.mem_cons]
        constructor
        · rintro ⟨ha, hns⟩; exact ⟨Or.inr ha, hns⟩
        · rintro ⟨rfl | ha, hns⟩
          · exact absurd hx hns
          · exact ⟨ha, hns⟩
      · rw [if_neg hx]
        simp only [List.mem_cons, ih (x :: seen) a]
        constructor
        · rintro (rfl | ⟨ha, hns⟩)
          · exact ⟨Or.inl rfl, hx⟩
          · exact ⟨Or.inr ha, fun hc => hns (Or.inr hc)⟩
        · rintro ⟨rfl | ha, hns⟩
          · exact Or.inl rfl
          · by_cases hax : a = x
            · exact Or.inl hax
            · exact Or.inr ⟨ha, fun hc => hc.elim hax hns⟩

theorem mem_unique (l : List String) (a : String) :
    a ∈ unique l ↔ a ∈ l := by
  simp [unique, mem_uniqueFilter]

theorem nodup_uniqueFilter (l : List String) :
    ∀ seen : List String, (uniqueFilter seen l).Nodup := by
  induction l with
  | nil => intro seen; simp [uniqueFilter]
  | cons x xs ih =>
      intro seen
      simp only [uniqueFilter]
      by_cases hx : x ∈ seen
      · rw [if_pos hx]; exact ih seen
      · rw [if_neg hx]
        refine List.Nodup.cons ?_ (ih (x :: seen))
        intro hmem
        exact ((mem_uniqueFilter xs (x :: seen) x).mp hmem).2 (List.mem_cons_self x seen)

theorem nodup_unique (l : List String) : (unique l).Nodup :=
  nodup_uniqueFilter l []

/-- `uniqueFilter` depends on `seen` only through membership. -/
theorem uniqueFilter_congr (l : List String) :
    ∀ (s₁ s₂ : List String), (∀ a, a ∈ s₁ ↔ a ∈ s₂) →
      uniqueFilter s₁ l = uniqueFilter s₂ l := by
  induction l with
  | nil => intro s₁ s₂ _; rfl
  | cons x xs ih =>
      intro s₁ s₂ h
      by_cases hx : x ∈ s₁
      · rw [uniqueFilter, uniqueFilter, if_pos hx, if_pos ((h x).mp hx)]
        exact ih s₁ s₂ h
      · rw [uniqueFilter, uniqueFilter, if_neg hx, if_neg (fun hc => hx ((h x).mpr hc))]
        refine congrArg (x :: ·) (ih _ _ ?_)
        intro a; simp [List.mem_cons, h a]

/-- Processing a concatenation: the first block is de-duplicated against
`seen`, the second block against `seen` extended with the first block. -/
theorem uniqueFilter_append (a : List String) :
    ∀ (seen b : List String),
      uniqueFilter seen (a ++ b)
        = uniqueFilter seen a ++ uniqueFilter (a ++ seen) b := by
  induction a with
  | nil => intro seen b; simp [uniqueFilter]
  | cons x xs ih =>
      intro seen b
      rw [List.cons_append]
      simp only [uniqueFilter]
      by_cases hx : x ∈ seen
      · rw [if_pos hx, if_pos hx, ih seen b]
        refine congrArg (uniqueFilter seen xs ++ ·)
          (uniqueFilter_congr b (xs ++ seen) (x :: xs ++ seen) ?_)
        intro c
        simp only [List.mem_append, List.cons_append, List.mem_cons]
        constructor
        · rintro (h | h)
          · exact Or.inr (Or.inl h)
          · exact Or.inr (Or.inr h)
        · rintro (rfl | h | h)
          · exact Or.inr hx
          · exact Or.inl h
          · exact Or.inr h
      · rw [if_neg hx, if_neg hx, ih (x :: seen) b, List.cons_append]
        refine congrArg (fun t => x :: (uniqueFilter (x :: seen) xs ++ t))
          (uniqueFilter_congr b (xs ++ x :: seen) (x :: (xs ++ seen)) ?_)
        intro c
        simp only [List.mem_append, List.mem_cons]
        tauto

/-- De-duplicating a concatenation keeps the de-duplicated first list as
a prefix and appends only elements of the second list not already in the
first. -/
theorem unique_append (a b : List String) :
    unique (a ++ b) = unique a ++ uniqueFilter a b := by
  have h := uniqueFilter_append a [] b
  rw [unique, unique, h]
  refine congrArg (uniqueFilter [] a ++ ·) (uniqueFilter_congr b _ _ ?_)
  intro c; simp

theorem sorted_sortWords (l : List String) :
    List.Sorted strLeProp (sortWords l) :=
  List.sorted_insertionSort strLeProp l

theorem perm_sortWords (l : List String) : List.Perm (sortWords l) l :=
  List.perm_insertionSort strLeProp l

theorem mem_sortWords (l : List String) (a : String) :
    a ∈ sortWords l ↔ a ∈ l :=
  (perm_sortWords l).mem_iff

theorem nodup_sortWords (l : List String) (h : l.Nodup) :
    (sortWords l).Nodup :=
  ((perm_sortWords l).nodup_iff).mpr h

/-- Two sorted lists of distinct words holding the same words are equal. -/
theorem sorted_nodup_ext (l₁ l₂ : List String)
    (s₁ : List.Sorted strLeProp l₁) (s₂ : List.Sorted strLeProp l₂)
    (d₁ : l₁.Nodup) (d₂ : l₂.Nodup)
    (h : ∀ a, a ∈ l₁ ↔ a ∈ l₂) : l₁ = l₂ :=
  List.eq_of_perm_of_sorted ((List.perm_ext_iff_of_nodup d₁ d₂).mpr h) s₁ s₂

theorem mem_mergedDictLines (fs : DictFS) (p : String) (ws : List String)
    (a : String) :
    a ∈ mergedDictLines fs p ws ↔ a ∈ readDictLines fs p ∨ a ∈ ws := by
  rw [mergedDictLines, mem_sortWords, mem_unique, List.mem_append]

theorem nodup_mergedDictLines (fs : DictFS) (p : String) (ws : List String) :
    (mergedDictLines fs p ws).Nodup :=
  nodup_sortWords _ (nodup_unique _)

theorem sorted_mergedDictLines (fs : DictFS) (p : String) (ws : List String) :
    List.Sorted strLeProp (mergedDictLines fs p ws) :=
  sorted_sortWords _

/-- Sorting the de-duplicated union is insensitive to the first list
having already been sorted and de-duplicated. -/
theorem sortWords_unique_idem (w₁ w₂ : List String) :
    sortWords (unique (sortWords (unique w₁) ++ w₂))
      = sortWords (unique (w₁ ++ w₂)) := by
  refine sorted_nodup_ext _ _ (sorted_sortWords _) (sorted_sortWords _)
    (nodup_sortWords _ (nodup_unique _)) (nodup_sortWords _ (nodup_unique _)) ?_
  intro a
  simp [mem_sortWords, mem_unique, List.mem_append]

/-- A nonempty serialized dictionary file ends with a newline. -/
theorem joinLines_trailing_newline (ls : List String) (h : ls ≠ []) :
    ∃ s, joinLines ls = s ++ "\n" := by
  induction ls with
  | nil => exact absurd rfl h
  | cons x xs ih =>
      cases xs with
      | nil => exact ⟨x, rfl⟩
      | cons y ys =>
          obtain ⟨s, hs⟩ := ih (List.cons_ne_nil y ys)
          refine ⟨x ++ "\n" ++ s, ?_⟩
          show x ++ "\n" ++ joinLines (y :: ys) = x ++ "\n" ++ s ++ "\n"
          simp [hs, String.append_assoc]

/-! ## Claim theorems -/

/-- C9: `isUpdateSupportedForConfigFileFormat` holds exactly when the
path of the uri ends in .json or .jsonc; the query string and the
fragment are ignored when classifying the suffix; it is false for .yml,
.config.js, .config.cjs and for an empty uri, and true for .json and
.jsonc targets with or without a query string or fragment. -/
theorem isUpdateSupported_iff_json_or_jsonc :
    (∀ u : Uri, isUpdateSupportedForConfigFileFormat u = true
        ↔ (strEndsWith u.path ".json" = true ∨ strEndsWith u.path ".jsonc" = true))
    ∧ (∀ p q₁ f₁ q₂ f₂, isUpdateSupportedForConfigFileFormat ⟨p, q₁, f₁⟩
        = isUpdateSupportedForConfigFileFormat ⟨p, q₂, f₂⟩)
    ∧ isUpdateSupportedForConfigFileFormat ⟨"", "", ""⟩ = false
    ∧ isUpdateSupportedForConfigFileFormat ⟨"/x/cspell.yml", "", ""⟩ = false
    ∧ isUpdateSupportedForConfigFileFormat ⟨"/x/cspell.config.js", "", ""⟩ = false
    ∧ isUpdateSupportedForConfigFileFormat ⟨"/x/cspell.config.cjs", "", ""⟩ = false
    ∧ isUpdateSupportedForConfigFileFormat ⟨"/x/cspell.json", "", ""⟩ = true
    ∧ isUpdateSupportedForConfigFileFormat ⟨"/x/cspell.json", "q=a", ""⟩ = true
    ∧ isUpdateSupportedForConfigFileFormat ⟨"/x/cspell.jsonc", "q=a", "f"⟩ = true
    ∧ isUpdateSupportedForConfigFileFormat ⟨"/x/cspell.jsonc", "", "f"⟩ = true := by
  constructor
  · intro u
    simp [isUpdateSupportedForConfigFileFormat]
  refine ⟨fun p q₁ f₁ q₂ f₂ => rfl, ?_, ?_, ?_, ?_, ?_, ?_, ?_, ?_⟩
  all_goals decide

/-- C5: `readSettings` on a missing file returns the one distinguished
default-settings instance, for every store and uri; in particular any
two reads of missing files, over any stores and uris, return the same
value. -/
theorem readSettings_missing_returns_default :
    (∀ (fs : SettingsFS) (u : Uri),
        lookupSettingsFS fs u.path = none →
          readSettings fs u = getDefaultSettings)
    ∧ (∀ (fs₁ fs₂ : SettingsFS) (u₁ u₂ : Uri),
        lookupSettingsFS fs₁ u₁.path = none →
        lookupSettingsFS fs₂ u₂.path = none →
          readSettings fs₁ u₁ = readSettings fs₂ u₂) := by
  have base : ∀ (fs : SettingsFS) (u : Uri),
      lookupSettingsFS fs u.path = none →
        readSettings fs u = getDefaultSettings := by
    intro fs u h
    rw [readSettings, h]
  exact ⟨base,
    fun fs₁ fs₂ u₁ u₂ h₁ h₂ => (base fs₁ u₁ h₁).trans (base fs₂ u₂ h₂).symm⟩

/-- Witness for C5 at a concrete missing file. -/
theorem readSettings_missing_returns_default_witness :
    lookupSettingsFS ([] : SettingsFS) "not_found/cspell.json" = none
    ∧ readSettings ([] : SettingsFS) ⟨"not_found/cspell.json", "", ""⟩
        = getDefaultSettings :=
  ⟨rfl, readSettings_missing_returns_default.1 ([] : SettingsFS)
    ⟨"not_found/cspell.json", "", ""⟩ rfl⟩

/-- C3: on a format that is not a mutation target the update fails with
FailedToUpdateConfigFile carrying the target path, performs no read and
no write (the operation trace is empty), and leaves the store untouched,
for every store (target file existing or not) and every transform. -/
theorem readAndApplyUpdate_unsupported_fails_before_io :
    ∀ (fs : SettingsFS) (u : Uri)
      (tr : CSpellUserSettings → CSpellUserSettings),
      isUpdateSupportedForConfigFileFormat u = false →
      readSettingsFileAndApplyUpdate fs u tr
        = (Except.error (UpdateError.failedToUpdateConfigFile u.path), fs, []) := by
  intro fs u tr h
  simp only [readSettingsFileAndApplyUpdate, h, Bool.false_eq_true, if_false]

/-- Witness for C3: a .js target, both when the file exists in the store
and when it does not. -/
theorem readAndApplyUpdate_unsupported_fails_before_io_witness :
    isUpdateSupportedForConfigFileFormat ⟨"/tmp/tempCSpell.js", "", ""⟩ = false
    ∧ readSettingsFileAndApplyUpdate
        ([("/tmp/tempCSpell.js", getDefaultSettings)] : SettingsFS)
        ⟨"/tmp/tempCSpell.js", "", ""⟩ (fun s => s)
        = (Except.error (UpdateError.failedToUpdateConfigFile "/tmp/tempCSpell.js"),
            ([("/tmp/tempCSpell.js", getDefaultSettings)] : SettingsFS), [])
    ∧ readSettingsFileAndApplyUpdate ([] : SettingsFS)
        ⟨"/tmp/tempCSpell.js", "", ""⟩ (fun s => s)
        = (Except.error (UpdateError.failedToUpdateConfigFile "/tmp/tempCSpell.js"),
            ([] : SettingsFS), []) :=
  ⟨by decide,
   readAndApplyUpdate_unsupported_fails_before_io _ _ _ (by decide),
   readAndApplyUpdate_unsupported_fails_before_io _ _ _ (by decide)⟩

/-- C7: `addWordsToSettings` yields the case-sensitively de-duplicated
extension of the existing list: the de-duplicated existing words keep
first-occurrence order as a prefix, the appended block holds exactly the
genuinely new words, the result has no duplicates and holds exactly the
union of the two lists; a duplicate-carrying list added to the word-less
default settings yields exactly its de-duplicated set, and the result is
a new document differing from the input (the embedding is pure, so the
input itself is never mutated). -/
theorem addWordsToSettings_spec :
    (∀ (doc : CSpellUserSettings) (ws : List String),
        (addWordsToSettings doc ws).words
          = some (unique (doc.words.getD [])
              ++ uniqueFilter (doc.words.getD []) ws))
    ∧ (∀ (doc : CSpellUserSettings) (ws : List String),
        (unique ((doc.words.getD []) ++ ws)).Nodup)
    ∧ (∀ (doc : CSpellUserSettings) (ws : List String) (a : String),
        a ∈ unique ((doc.words.getD []) ++ ws)
          ↔ a ∈ doc.words.getD [] ∨ a ∈ ws)
    ∧ (∀ (ex ws : List String) (a : String),
        a ∈ uniqueFilter ex ws ↔ a ∈ ws ∧ a ∉ ex)
    ∧ (addWordsToSettings getDefaultSettings ["test", "case", "case"]).words
        = some ["test", "case"]
    ∧ addWordsToSettings getDefaultSettings ["test", "case", "case"]
        ≠ getDefaultSettings := by
  refine ⟨?_, ?_, ?_, ?_, by decide, by decide⟩
  · intro doc ws
    simp [addWordsToSettings, unique_append]
  · intro doc ws
    exact nodup_unique _
  · intro doc ws a
    rw [mem_unique, List.mem_append]
  · intro ex ws a
    exact mem_uniqueFilter ws ex a

/-- C8: with isEnabledByDefaultList true the call returns the document
unchanged (enabledLanguageIds stays unset when it was unset); with false
the ids are unioned, de-duplicated, into enabledLanguageIds; the spec
example evaluates accordingly. -/
theorem addLanguageIdsToSettings_spec :
    (∀ (doc : CSpellUserSettings) (ids : List String),
        addLanguageIdsToSettings doc ids true = doc)
    ∧ (∀ (doc : CSpellUserSettings) (ids : List String),
        (addLanguageIdsToSettings doc ids false).enabledLanguageIds
          = some (unique ((doc.enabledLanguageIds.getD []) ++ ids)))
    ∧ (∀ (doc : CSpellUserSettings) (ids : List String) (a : String),
        a ∈ unique ((doc.enabledLanguageIds.getD []) ++ ids)
          ↔ a ∈ doc.enabledLanguageIds.getD [] ∨ a ∈ ids)
    ∧ (∀ (doc : CSpellUserSettings) (ids : List String),
        (unique ((doc.enabledLanguageIds.getD []) ++ ids)).Nodup)
    ∧ (addLanguageIdsToSettings getDefaultSettings
        ["cpp", "cs", "php", "json", "cs"] true).enabledLanguageIds = none
    ∧ (addLanguageIdsToSettings getDefaultSettings
        ["cpp", "cs", "php", "json", "cs"] false).enabledLanguageIds
        = some ["cpp", "cs", "php", "json"] := by
  refine ⟨fun doc ids => rfl, fun doc ids => rfl, ?_, ?_, by decide, by decide⟩
  · intro doc ids a
    rw [mem_unique, List.mem_append]
  · intro doc ids
    exact nodup_unique _

/-- C6: `removeWordsFromSettings` keeps exactly the existing words whose
lower-cased form matches no removal word (removal words matching nothing
are ignored), in their original order (the kept list is a sublist of the
original), clears the field to unset when nothing remains, and the spec
example evaluates as stated. -/
theorem removeWordsFromSettings_spec :
    (∀ (doc : CSpellUserSettings) (ws : List String),
        (removeWordsFromSettings doc ws).words
          = (if (keptWords (doc.words.getD []) ws).isEmpty then none
             else some (keptWords (doc.words.getD []) ws)))
    ∧ (∀ (existing ws : List String) (a : String),
        a ∈ keptWords existing ws
          ↔ a ∈ existing ∧ ¬ ∃ r ∈ ws, toLowerStr r = toLowerStr a)
    ∧ (∀ existing ws : List String,
        List.Sublist (keptWords existing ws) existing)
    ∧ (removeWordsFromSettings
        { getDefaultSettings with
            words := some ["apple", "banana", "orange", "blue", "green",
              "red", "Yellow"] }
        ["BLUE", "pink", "yellow"]).words
        = some ["apple", "banana", "orange", "green", "red"]
    ∧ (removeWordsFromSettings
        { getDefaultSettings with words := some ["blue"] } ["BLUE"]).words
        = none := by
  refine ⟨fun doc ws => rfl, ?_, ?_, by decide, by decide⟩
  · intro existing ws a
    simp [keptWords, List.mem_filter, List.elem_iff, List.mem_map]
  · intro existing ws
    exact List.filter_sublist existing

/-- C4: a successful `addWordsToCustomDictionary` stores the sorted,
case-sensitively de-duplicated union of the prior lines (a missing file
reading as empty) and the new words: the call performs exactly that
write, the stored lines are sorted and duplicate-free and hold exactly
the union, the serialized content ends with a newline (one word per
line), and a second call over the freshly written file yields the sorted
de-duplicated union of the words of both calls. -/
theorem addWordsToCustomDictionary_spec :
    ∀ (u : Uri) (fs : DictFS) (ws : List String),
      isRecognizedDictionaryFormat u.path = true →
      (addWordsToCustomDictionary ws fs u
          = Except.ok (writeDictFS fs u.path (mergedDictLines fs u.path ws))
        ∧ List.Sorted strLeProp (mergedDictLines fs u.path ws)
        ∧ (mergedDictLines fs u.path ws).Nodup
        ∧ (∀ a, a ∈ mergedDictLines fs u.path ws
            ↔ a ∈ readDictLines fs u.path ∨ a ∈ ws)
        ∧ (mergedDictLines fs u.path ws ≠ [] →
            ∃ s, joinLines (mergedDictLines fs u.path ws) = s ++ "\n")
        ∧ (∀ ws₂ : List String,
            readDictLines fs u.path = [] →
            addWordsToCustomDictionary ws₂
                (writeDictFS fs u.path (mergedDictLines fs u.path ws)) u
              = Except.ok (writeDictFS
                  (writeDictFS fs u.path (mergedDictLines fs u.path ws))
                  u.path (sortWords (unique (ws ++ ws₂)))))) := by
  intro u fs ws hfmt
  refine ⟨?_, sorted_mergedDictLines fs u.path ws,
    nodup_mergedDictLines fs u.path ws, mem_mergedDictLines fs u.path ws,
    joinLines_trailing_newline _, ?_⟩
  · simp only [addWordsToCustomDictionary]
    rw [if_pos hfmt]
  · intro ws₂ hmiss
    simp only [addWordsToCustomDictionary]
    rw [if_pos hfmt]
    have hread : readDictLines
        (writeDictFS fs u.path (mergedDictLines fs u.path ws)) u.path
        = mergedDictLines fs u.path ws := by
      simp [readDictLines, writeDictFS, List.lookup]
    have hL : mergedDictLines fs u.path ws = sortWords (unique ws) := by
      rw [mergedDictLines, hmiss, List.nil_append]
    have hlines : mergedDictLines
        (writeDictFS fs u.path (mergedDictLines fs u.path ws)) u.path ws₂
        = sortWords (unique (ws ++ ws₂)) := by
      rw [mergedDictLines, hread, hL, sortWords_unique_idem]
    rw [hlines]

/-- Witness for C4 at the dictionary test inputs (a fresh dict.txt). -/
theorem addWordsToCustomDictionary_spec_witness :
    isRecognizedDictionaryFormat "/tmp/dict.txt" = true
    ∧ (addWordsToCustomDictionary ["one", "two", "three"] ([] : DictFS)
          ⟨"/tmp/dict.txt", "", ""⟩
          = Except.ok (writeDictFS ([] : DictFS) "/tmp/dict.txt"
              (mergedDictLines ([] : DictFS) "/tmp/dict.txt"
                ["one", "two", "three"]))
        ∧ List.Sorted strLeProp (mergedDictLines ([] : DictFS) "/tmp/dict.txt"
            ["one", "two", "three"])
        ∧ (mergedDictLines ([] : DictFS) "/tmp/dict.txt"
            ["one", "two", "three"]).Nodup
        ∧ (∀ a, a ∈ mergedDictLines ([] : DictFS) "/tmp/dict.txt"
              ["one", "two", "three"]
            ↔ a ∈ readDictLines ([] : DictFS) "/tmp/dict.txt"
              ∨ a ∈ ["one", "two", "three"])
        ∧ (mergedDictLines ([] : DictFS) "/tmp/dict.txt"
              ["one", "two", "three"] ≠ [] →
            ∃ s, joinLines (mergedDictLines ([] : DictFS) "/tmp/dict.txt"
              ["one", "two", "three"]) = s ++ "\n")
        ∧ (∀ ws₂ : List String,
            readDictLines ([] : DictFS) "/tmp/dict.txt" = [] →
            addWordsToCustomDictionary ws₂
                (writeDictFS ([] : DictFS) "/tmp/dict.txt"
                  (mergedDictLines ([] : DictFS) "/tmp/dict.txt"
                    ["one", "two", "three"]))
                ⟨"/tmp/dict.txt", "", ""⟩
              = Except.ok (writeDictFS
                  (writeDictFS ([] : DictFS) "/tmp/dict.txt"
                    (mergedDictLines ([] : DictFS) "/tmp/dict.txt"
                      ["one", "two", "three"]))
                  "/tmp/dict.txt"
                  (sortWords (unique (["one", "two", "three"] ++ ws₂)))))) :=
  ⟨by decide,
   addWordsToCustomDictionary_spec ⟨"/tmp/dict.txt", "", ""⟩ ([] : DictFS)
     ["one", "two", "three"] (by decide)⟩

/-- C1: two rapid document-changed events for one URI within the debounce
window (no timer expiry between them): the code hands BOTH versions to
validateTextDocument — the first is flushed downstream the moment the
second arrives, because lastValidated keeps its initial value "" forever,
so the flush guard inside the duration selector fires for every follow-up
request — refuting the claimed outcome of exactly one validation carrying
only the second version. -/
theorem debounce_two_rapid_events_validates_both_versions :
    (runScheduler
        [SchedulerEvent.request ⟨"file:///doc.txt", "plaintext", 1⟩,
         SchedulerEvent.request ⟨"file:///doc.txt", "plaintext", 2⟩,
         SchedulerEvent.timerFires]).validated
      = [⟨"file:///doc.txt", "plaintext", 1⟩, ⟨"file:///doc.txt", "plaintext", 2⟩]
    ∧ (runScheduler
        [SchedulerEvent.request ⟨"file:///doc.txt", "plaintext", 1⟩,
         SchedulerEvent.request ⟨"file:///doc.txt", "plaintext", 2⟩,
         SchedulerEvent.timerFires]).validated
      ≠ [⟨"file:///doc.txt", "plaintext", 2⟩] := by
  constructor
  · decide
  · decide

/-- C2: a document failing the gating check is indeed dropped before the
external validator by the main validation stream; but the skip stream
never emits the claimed empty diagnostic set, because its filter negates
the truthy Promise returned by calling the async shouldValidateDocument
without await: its emissions are empty for every input, and in particular
the vscode-scheme document excluded by the default glob gets no cleared
diagnostics. -/
theorem gated_document_not_validated_but_diagnostics_never_cleared :
    (∀ docs : List ServerDoc, skipValidationStreamEmissions docs = [])
    ∧ shouldValidateDocument ⟨"vscode:/settings.json", "plaintext", 1⟩
        { getDefaultSettings with
            enabled := some true, enabledLanguageIds := some ["plaintext"] }
        matchesVscodeDefaultExclusionGlob = false
    ∧ gatedValidationStream [⟨"vscode:/settings.json", "plaintext", 1⟩]
        { getDefaultSettings with
            enabled := some true, enabledLanguageIds := some ["plaintext"] }
        matchesVscodeDefaultExclusionGlob = []
    ∧ skipValidationStreamEmissions [⟨"vscode:/settings.json", "plaintext", 1⟩]
        ≠ [{ uri := "vscode:/settings.json", diagnostics := [] }] := by
  refine ⟨?_, by decide, by decide, by decide⟩
  intro docs
  simp [skipValidationStreamEmissions, skipValidationStreamFilter,
    promiseObjectIsTruthy]

/-- C10: closing a document publishes exactly one empty diagnostic set
for its URI, whatever the scheduler state: the pending validation state,
the validated list and the debounce bookkeeping are untouched, and no
gating or exclusion is consulted. -/
theorem close_publishes_empty_diagnostics :
    ∀ (s : SchedulerState) (uri : String),
      schedulerStep s (SchedulerEvent.close uri)
        = { s with
              published := s.published ++ [{ uri := uri, diagnostics := [] }] } :=
  fun _ _ => rfl

end CSpell
